import Mathlib

/-!
Verification of the `pb-imgsize` image-metadata reader (src/lib.rs, src/jpeg.rs,
src/png.rs) against its specification.

The Rust sources are shallowly embedded: byte buffers are `List Nat` (each entry a
byte value `< 256`), machine integers are `Nat` (the Rust code never overflows its
integer types on byte input: `u16`/`u32` values are built from at most four bytes,
and `usize` arithmetic on 64-bit hosts cannot wrap for in-memory buffers), and each
fallible Rust function returns an `Outcome`, whose `crashed` constructor marks a
Rust panic (an out-of-range slice index or an `unwrap` of `None`).

Rust's in-place cursor (`self.position`) is passed explicitly.  The `while` loops of
`read_jpeg_data` / `read_png_data` and the `resync` loop are embedded with an
explicit fuel parameter, which is structurally decreasing so that every definition
computes by kernel reduction.  At the entry points the fuel is the buffer length:
every JPEG loop iteration advances the cursor by at least 4 positions, every PNG
loop iteration by at least 12, and every resync step by at least 1, so a fuel of
`buf.length` (plus one for resync) can never be exhausted before the corresponding
Rust loop exits; the value returned on fuel exhaustion is therefore never observed.
-/

/-- Result of running embedded Rust code: success, a typed error, or a panic
(`crashed` models an abnormal abort such as an out-of-range index). -/
inductive Outcome (ε α : Type) where
  | ok (a : α) : Outcome ε α
  | error (e : ε) : Outcome ε α
  | crashed : Outcome ε α
deriving DecidableEq, Repr

/-- The error type `jpeg::JpegDecodingError` (src/jpeg.rs lines 3–22). -/
inductive JpegDecodingError where
  | noSoiMarker : JpegDecodingError
  | noSofMarker (position : Nat) (comments : List (List Nat)) : JpegDecodingError
  | sofDataTooShort (position : Nat) : JpegDecodingError
  | invalidFrameMarker (word : Nat) (position : Nat) : JpegDecodingError
  | invalidSegmentLength (length : Nat) : JpegDecodingError
deriving DecidableEq, Repr

/-- The error type `png::PngDecodingError` (src/png.rs lines 3–13). -/
inductive PngDecodingError where
  | missingIHDR : PngDecodingError
  | invalidIHDRLength (n : Nat) : PngDecodingError
  | invalidChunkCrc : PngDecodingError
deriving DecidableEq, Repr

/-- The error type `DecodingError` (src/lib.rs lines 68–81). -/
inductive DecodingError where
  | unknownMagic (magic : Nat) : DecodingError
  | jpeg (e : JpegDecodingError) : DecodingError
  | png (e : PngDecodingError) : DecodingError
  | tooShort (n : Nat) : DecodingError
deriving DecidableEq, Repr

/-- The result record `ImageMetadata` (src/lib.rs lines 108–114). -/
structure ImageMetadata where
  width : Nat
  height : Nat
  comments : List (List Nat)
deriving DecidableEq, Repr

/-- All entries of the buffer are byte values. -/
def IsBytes (l : List Nat) : Prop := ∀ b ∈ l, b < 256

instance (l : List Nat) : Decidable (IsBytes l) := by
  unfold IsBytes; infer_instance

/-- Rust `u16::from_be_bytes([l[p], l[p+1]])`.  The callers establish the bounds
before the Rust code indexes, so in-bounds `getD` equals the indexed byte. -/
def be16at (l : List Nat) (p : Nat) : Nat :=
  256 * l.getD p 0 + l.getD (p + 1) 0

/-- Rust `u32::from_be_bytes([l[p], l[p+1], l[p+2], l[p+3]])`. -/
def be32at (l : List Nat) (p : Nat) : Nat :=
  ((l.getD p 0 * 256 + l.getD (p + 1) 0) * 256 + l.getD (p + 2) 0) * 256 + l.getD (p + 3) 0

/-- The slice `&l[start .. start + n]`, as the list of its bytes.  Every use is
guarded by a bounds check mirroring the Rust code, under which this equals the
Rust slice. -/
def extractBytes (l : List Nat) (start n : Nat) : List Nat :=
  (List.range n).map (fun k => l.getD (start + k) 0)

/-! ## CRC32 (the `crc32fast` collaborator)

`crc32fast::Hasher` computes the standard CRC-32/ISO-HDLC checksum: reflected
polynomial `0xEDB88320`, initial state `0xFFFFFFFF`, final xor `0xFFFFFFFF`.
This is the bit-at-a-time reference algorithm for that checksum. -/

def crcPoly : Nat := 0xEDB88320

/-- One bit step of the reflected CRC-32 algorithm. -/
def crcStep (s : Nat) : Nat :=
  if s % 2 = 1 then (s / 2) ^^^ crcPoly else s / 2

/-- Eight bit steps: one input byte. -/
def crcRound (s : Nat) : Nat :=
  crcStep (crcStep (crcStep (crcStep (crcStep (crcStep (crcStep (crcStep s)))))))

/-- Absorb one byte into the CRC state. -/
def crcUpdate (s b : Nat) : Nat := crcRound (s ^^^ b)

/-- The `crc32fast` checksum: CRC-32 of a byte sequence. -/
def crc32 (data : List Nat) : Nat :=
  (data.foldl crcUpdate 0xFFFFFFFF) ^^^ 0xFFFFFFFF

/-! ## PNG scanner (src/png.rs) -/

def ihdrType : List Nat := [0x49, 0x48, 0x44, 0x52]

def textType : List Nat := [0x74, 0x45, 0x58, 0x74]

def iendType : List Nat := [0x49, 0x45, 0x4e, 0x44]

def commentKeyword : List Nat := [0x63, 0x6f, 0x6d, 0x6d, 0x65, 0x6e, 0x74]

/-- Rust `chunk_data.splitn(2, |&b| b == 0)` followed by the two `parts.next()` calls
(src/png.rs lines 64–66): the part before the first NUL and the rest after it.
`none` when the data contains no NUL, in which case the second
`parts.next().unwrap()` in the Rust code panics. -/
def splitAtNul : List Nat → Option (List Nat × List Nat)
  | [] => none
  | b :: rest =>
    if b = 0 then some ([], rest)
    else match splitAtNul rest with
      | none => none
      | some (k, t) => some (b :: k, t)

/-- End of `read_png_data` (src/png.rs lines 81–86): dimensions recorded yield
success, otherwise `MissingIHDR`. -/
def finishPng (comments : List (List Nat)) (dims : Option (Nat × Nat)) :
    Outcome PngDecodingError ImageMetadata :=
  match dims with
  | some (w, h) => .ok ⟨w, h, comments⟩
  | none => .error .missingIHDR

/-- The `while pos + 12 < buf.len()` loop of `read_png_data`
(src/png.rs lines 22–79), with explicit cursor and accumulators.  The fuel is
structurally decreasing; each iteration advances `pos` by `12 + chunk_length`,
so fuel `buf.length` is never exhausted (exhaustion returns the loop-exit
value, which is then never observed). -/
def readPngLoop : Nat → List Nat → Nat → List (List Nat) → Option (Nat × Nat) →
    Outcome PngDecodingError ImageMetadata
  | 0, _, _, comments, dims => finishPng comments dims
  | fuel + 1, buf, pos, comments, dims =>
    if pos + 12 < buf.length then
      let chunkLength := be32at buf pos
      let chunkType := extractBytes buf (pos + 4) 4
      if pos + 8 + chunkLength + 4 > buf.length then .error .invalidChunkCrc
      else
        let chunkData := extractBytes buf (pos + 8) chunkLength
        let chunkCrc := be32at buf (pos + 8 + chunkLength)
        if crc32 (chunkType ++ chunkData) ≠ chunkCrc then .error .invalidChunkCrc
        else if chunkType = ihdrType then
          if chunkLength ≠ 13 then .error (.invalidIHDRLength chunkLength)
          else readPngLoop fuel buf (pos + 12 + chunkLength) comments
            (some (be32at chunkData 0, be32at chunkData 4))
        else if chunkType = textType then
          match splitAtNul chunkData with
          | none => .crashed
          | some (keyword, text) =>
            if keyword = commentKeyword then
              readPngLoop fuel buf (pos + 12 + chunkLength) (comments ++ [text]) dims
            else readPngLoop fuel buf (pos + 12 + chunkLength) comments dims
        else if chunkType = iendType then finishPng comments dims
        else readPngLoop fuel buf (pos + 12 + chunkLength) comments dims
    else finishPng comments dims

/-- The function `read_png_data` (src/png.rs lines 16–87). -/
def readPngData (buf : List Nat) : Outcome PngDecodingError ImageMetadata :=
  readPngLoop buf.length buf 8 [] none

/-- Declared length of the chunk starting at offset `p`. -/
def chunkLenAt (buf : List Nat) (p : Nat) : Nat := be32at buf p

/-- Type bytes of the chunk starting at offset `p`. -/
def chunkTypeAt (buf : List Nat) (p : Nat) : List Nat := extractBytes buf (p + 4) 4

/-- Payload of the chunk starting at offset `p`. -/
def chunkDataAt (buf : List Nat) (p : Nat) : List Nat :=
  extractBytes buf (p + 8) (be32at buf p)

/-- Stored CRC of the chunk starting at offset `p`. -/
def chunkCrcAt (buf : List Nat) (p : Nat) : Nat := be32at buf (p + 8 + be32at buf p)

/-- Instrumentation of `readPngLoop`: the list of `(offset, declared length)` of
every chunk the scanner processes (reads in full and checks the CRC of), in
order.  The control flow mirrors `readPngLoop` exactly. -/
def pngTrace : Nat → List Nat → Nat → List (Nat × Nat)
  | 0, _, _ => []
  | fuel + 1, buf, pos =>
    if pos + 12 < buf.length then
      let chunkLength := be32at buf pos
      let chunkType := extractBytes buf (pos + 4) 4
      if pos + 8 + chunkLength + 4 > buf.length then []
      else
        let chunkData := extractBytes buf (pos + 8) chunkLength
        let chunkCrc := be32at buf (pos + 8 + chunkLength)
        if crc32 (chunkType ++ chunkData) ≠ chunkCrc then [(pos, chunkLength)]
        else if chunkType = ihdrType then
          if chunkLength ≠ 13 then [(pos, chunkLength)]
          else (pos, chunkLength) :: pngTrace fuel buf (pos + 12 + chunkLength)
        else if chunkType = textType then
          match splitAtNul chunkData with
          | none => [(pos, chunkLength)]
          | some _ => (pos, chunkLength) :: pngTrace fuel buf (pos + 12 + chunkLength)
        else if chunkType = iendType then [(pos, chunkLength)]
        else (pos, chunkLength) :: pngTrace fuel buf (pos + 12 + chunkLength)
    else []

/-- The dimensions held after folding the processed chunks over an initial
dimension state: each IHDR-typed chunk overwrites the state with the first two
big-endian 32-bit fields of its payload. -/
def pngTracedDims (buf : List Nat) (d : Option (Nat × Nat)) :
    List (Nat × Nat) → Option (Nat × Nat)
  | [] => d
  | e :: rest =>
    pngTracedDims buf
      (if chunkTypeAt buf e.1 = ihdrType then
        some (be32at (chunkDataAt buf e.1) 0, be32at (chunkDataAt buf e.1) 4)
      else d) rest

/-! ## JPEG scanner (src/jpeg.rs) -/

/-- A parsed JPEG segment (src/jpeg.rs lines 82–86). -/
structure JpegSegment where
  position : Nat
  marker : Nat
  data : List Nat
deriving DecidableEq, Repr

/-- The predicate `JpegSegment::is_sof` (src/jpeg.rs lines 184–189). -/
def isSofMarker (m : Nat) : Bool :=
  decide (0xffc0 ≤ m) && decide (m ≤ 0xffcf) && decide (m ≠ 0xffc4) && decide (m ≠ 0xffc8)

/-- Rust `memchr::memchr(0xff, &buf[start..])`, returning the absolute index of the
first `0xff` at or after `start`. -/
def findFFfrom (buf : List Nat) (start : Nat) : Option Nat :=
  match (buf.drop start).findIdx? (fun b => b == 0xff) with
  | some k => some (start + k)
  | none => none

/-- The `while` loop of `JpegContext::resync` (src/jpeg.rs lines 164–179).
Each iteration moves `position` forward by at least one, so fuel
`buf.length + 1` is never exhausted. -/
def resyncGo : Nat → List Nat → Nat → Nat
  | 0, _, position => position
  | fuel + 1, buf, position =>
    if position + 1 < buf.length then
      if buf.getD position 0 = 0xff ∧ 0x01 < buf.getD (position + 1) 0 then position
      else match findFFfrom buf (position + 1) with
        | some j => resyncGo fuel buf j
        | none => buf.length
    else position

/-- The method `JpegContext::resync` (src/jpeg.rs lines 164–179). -/
def resync (buf : List Nat) (position : Nat) : Nat :=
  resyncGo (buf.length + 1) buf position

/-- The method `JpegContext::read_marker` (src/jpeg.rs lines 150–160): the marker and the
declared length, plus the advanced cursor.  The Rust code indexes
`buf[position]`, `buf[position+1]` and, for markers with a length field,
`buf[position+2]`, `buf[position+3]` without a bounds check: out-of-range
indexing is a panic, modelled by `crashed`. -/
def readMarker (buf : List Nat) (pos : Nat) :
    Outcome JpegDecodingError ((Nat × Nat) × Nat) :=
  if pos + 1 ≥ buf.length then .crashed
  else
    let marker := be16at buf pos
    if marker = 0xffd8 ∨ marker = 0xffd9 then .ok ((marker, 0), pos + 2)
    else if pos + 3 ≥ buf.length then .crashed
    else .ok ((marker, be16at buf (pos + 2)), pos + 4)

/-- The method `JpegContext::read_segment` (src/jpeg.rs lines 112–146).  Returns the
segment (or `none` at end of data) together with the advanced cursor. -/
def readSegment (buf : List Nat) (pos0 : Nat) :
    Outcome JpegDecodingError (Option JpegSegment × Nat) :=
  let pos := if buf.get? pos0 = some 0xff then pos0 else resync buf pos0
  if buf.get? pos ≠ some 0xff then .ok (none, pos)
  else if buf.get? (pos + 1) = some 0xd9 then .ok (none, pos)
  else if pos + 1 ≥ buf.length then .ok (none, pos)
  else match readMarker buf pos with
    | .crashed => .crashed
    | .error e => .error e
    | .ok ((marker, len), pos2) =>
      if len < 2 ∨ pos2 + len > buf.length then .error (.invalidSegmentLength len)
      else .ok (some ⟨pos, marker, extractBytes buf pos2 (len - 2)⟩, pos2 + (len - 2))

/-- Width recorded by `JpegSegment::read_sof`: payload bytes 3–4, big-endian. -/
def sofWidth (seg : JpegSegment) : Nat :=
  256 * seg.data.getD 3 0 + seg.data.getD 4 0

/-- Height recorded by `JpegSegment::read_sof`: payload bytes 1–2, big-endian. -/
def sofHeight (seg : JpegSegment) : Nat :=
  256 * seg.data.getD 1 0 + seg.data.getD 2 0

/-- The method `JpegSegment::read_sof` (src/jpeg.rs lines 196–205). -/
def readSof (seg : JpegSegment) : Outcome JpegDecodingError (Nat × Nat) :=
  if seg.data.length < 5 then .error (.sofDataTooShort seg.position)
  else .ok (sofWidth seg, sofHeight seg)

/-- End of `read_jpeg_data` (`TryFrom<JpegContext> for ImageMetadata`,
src/jpeg.rs lines 88–105). -/
def finishJpeg (pos : Nat) (comments : List (List Nat)) (dims : Option (Nat × Nat)) :
    Outcome JpegDecodingError ImageMetadata :=
  match dims with
  | some (w, h) => .ok ⟨w, h, comments⟩
  | none => .error (.noSofMarker pos comments)

/-- The `while let Some(segment)` loop of `read_jpeg_data`
(src/jpeg.rs lines 34–69).  Each iteration advances the cursor by at least 4,
so fuel `buf.length` is never exhausted (exhaustion returns the loop-exit
value, which is then never observed). -/
def readJpegLoop : Nat → List Nat → Nat → List (List Nat) → Option (Nat × Nat) →
    Outcome JpegDecodingError ImageMetadata
  | 0, _, pos, comments, dims => finishJpeg pos comments dims
  | fuel + 1, buf, pos, comments, dims =>
    match readSegment buf pos with
    | .crashed => .crashed
    | .error e => .error e
    | .ok (none, pos') => finishJpeg pos' comments dims
    | .ok (some seg, pos') =>
      if seg.marker < 0xff01 ∨ seg.marker = 0xffff then
        .error (.invalidFrameMarker seg.marker pos')
      else if seg.marker = 0xffd9 ∨ seg.marker = 0xffda then
        finishJpeg pos' comments dims
      else if isSofMarker seg.marker then
        match readSof seg with
        | .crashed => .crashed
        | .error e => .error e
        | .ok wh => readJpegLoop fuel buf pos' comments (some wh)
      else if seg.marker = 0xfffe then
        readJpegLoop fuel buf pos' (comments ++ [seg.data]) dims
      else readJpegLoop fuel buf pos' comments dims

/-- The function `read_jpeg_data` (src/jpeg.rs lines 25–74): the scan starts at position 2,
just past the SOI marker the dispatcher already matched. -/
def readJpegData (buf : List Nat) : Outcome JpegDecodingError ImageMetadata :=
  readJpegLoop buf.length buf 2 [] none

/-- Instrumentation of `readJpegLoop`: the list of segments the scanner
receives from `read_segment`, in order.  The control flow mirrors
`readJpegLoop` exactly. -/
def jpegTrace : Nat → List Nat → Nat → List JpegSegment
  | 0, _, _ => []
  | fuel + 1, buf, pos =>
    match readSegment buf pos with
    | .ok (some seg, pos') =>
      if seg.marker < 0xff01 ∨ seg.marker = 0xffff then [seg]
      else if seg.marker = 0xffd9 ∨ seg.marker = 0xffda then [seg]
      else if isSofMarker seg.marker then
        if seg.data.length < 5 then [seg] else seg :: jpegTrace fuel buf pos'
      else seg :: jpegTrace fuel buf pos'
    | _ => []

/-- The dimensions held after folding the processed segments over an initial
dimension state: each SOF segment overwrites the state
(`context.dimensions.replace`). -/
def tracedJpegDims (d : Option (Nat × Nat)) : List JpegSegment → Option (Nat × Nat)
  | [] => d
  | s :: rest =>
    tracedJpegDims (if isSofMarker s.marker then some (sofWidth s, sofHeight s) else d) rest

/-! ## Dispatcher (src/lib.rs) -/

def mapOutcomeErr {ε ε' α : Type} (f : ε → ε') : Outcome ε α → Outcome ε' α
  | .ok a => .ok a
  | .error e => .error (f e)
  | .crashed => .crashed

/-- The dispatcher `read_bytes` (src/lib.rs lines 171–183). -/
def readBytes (data : List Nat) : Outcome DecodingError ImageMetadata :=
  if data.length < 4 then .error (.tooShort 0)
  else if data.take 2 = [0xff, 0xd8] then mapOutcomeErr .jpeg (readJpegData data)
  else if data.take 4 = [0x89, 0x50, 0x4e, 0x47] then mapOutcomeErr .png (readPngData data)
  else .error (.unknownMagic (be32at data 0))
set_option maxRecDepth 100000

/-! ## Concrete buffers used by witnesses and counterexamples -/

/-- The 8-byte PNG signature. -/
def pngSig : List Nat := [0x89, 0x50, 0x4e, 0x47, 0x0d, 0x0a, 0x1a, 0x0a]

/-- An IHDR chunk: width 2, height 3, bit depth 8, colour type 2, stored CRC
equal to `crc32 (ihdrType ++ payload)`. -/
def ihdrChunkA : List Nat :=
  [0, 0, 0, 13] ++ ihdrType ++ [0, 0, 0, 2, 0, 0, 0, 3, 8, 2, 0, 0, 0] ++ [54, 136, 73, 214]

/-- An IHDR chunk: width 4, height 5, valid CRC. -/
def ihdrChunkB : List Nat :=
  [0, 0, 0, 13] ++ ihdrType ++ [0, 0, 0, 4, 0, 0, 0, 5, 8, 2, 0, 0, 0] ++ [237, 207, 218, 140]

/-- Signature plus one valid IHDR chunk. -/
def pbufIhdr : List Nat := pngSig ++ ihdrChunkA

/-- Signature plus two valid IHDR chunks with different dimensions. -/
def pbufTwoIhdr : List Nat := pngSig ++ ihdrChunkA ++ ihdrChunkB

/-- Signature plus a tEXt chunk whose payload `"abc"` contains no NUL byte;
the stored CRC is valid. -/
def pbufTextNoNul : List Nat :=
  pngSig ++ [0, 0, 0, 3] ++ textType ++ [0x61, 0x62, 0x63] ++ [252, 133, 155, 136]

/-- Buffer `pbufIhdr` with the stored CRC's last byte changed (214 → 215). -/
def pbufBadCrc : List Nat :=
  pngSig ++ [0, 0, 0, 13] ++ ihdrType ++ [0, 0, 0, 2, 0, 0, 0, 3, 8, 2, 0, 0, 0] ++ [54, 136, 73, 215]

/-- Buffer `pbufIhdr` with one payload byte changed (index 20: 0 → 9), CRC left alone. -/
def pbufFlip : List Nat :=
  pngSig ++ [0, 0, 0, 13] ++ ihdrType ++ [0, 0, 0, 2, 9, 0, 0, 3, 8, 2, 0, 0, 0] ++ [54, 136, 73, 214]

/-- Buffer `pbufIhdr` followed by a chunk of declared length 0 (type `"abcd"`, stored
CRC 0, which is wrong) occupying exactly the final 12 bytes of the buffer. -/
def pbufTail12 : List Nat := pbufIhdr ++ [0, 0, 0, 0] ++ [0x61, 0x62, 0x63, 0x64] ++ [0, 0, 0, 0]

/-- SOI, one SOF0 segment (height 1, width 2), EOI. -/
def jbufOneSof : List Nat := [0xff, 0xd8, 0xff, 0xc0, 0, 7, 8, 0, 1, 0, 2, 0xff, 0xd9]

/-- SOI, SOF0 (height 1, width 2), SOF1 (height 3, width 4), EOI. -/
def jbufTwoSof : List Nat :=
  [0xff, 0xd8, 0xff, 0xc0, 0, 7, 8, 0, 1, 0, 2, 0xff, 0xc1, 0, 7, 8, 0, 3, 0, 4, 0xff, 0xd9]

/-- SOI, SOF0 (height 1, width 2), then SOS with declared length `0xffff`,
which exceeds the remaining buffer. -/
def jbufSosOverrun : List Nat :=
  [0xff, 0xd8, 0xff, 0xc0, 0, 7, 8, 0, 1, 0, 2, 0xff, 0xda, 0xff, 0xff]

/-- SOI, then SOS with declared length 2 and two trailing bytes, so the length
check `position + len <= buf.len()` passes. -/
def jbufSosOk : List Nat := [0xff, 0xd8, 0xff, 0xda, 0, 2, 0, 0]

/-- SOI followed by a second SOI. -/
def jbufTwoSoi : List Nat := [0xff, 0xd8, 0xff, 0xd8]

/-- A 4-byte truncated JPEG: SOI then an APP0 marker with no length bytes.
This is a prefix of any JFIF file. -/
def jbufTruncated : List Nat := [0xff, 0xd8, 0xff, 0xe0]

/-- SOI, APP0 segment with declared length 4 whose 2-byte payload ends exactly
at the end of the buffer. -/
def jbufExactFit : List Nat := [0xff, 0xd8, 0xff, 0xe0, 0, 4, 0xaa, 0xbb]

/-! ## Claim theorems: crashes and dispatcher (C1, C5, C10) -/

/-- C1: the claim states that `read_bytes` never reads past the end of the
buffer and never aborts abnormally on any input, including truncated prefixes
of valid files.  The code violates this: on the 4-byte truncated JPEG
`[ff d8 ff e0]`, `JpegContext::read_marker` evaluates `buf[4]` and `buf[5]` of
a 4-byte buffer, an out-of-range index (a Rust panic).  This theorem evaluates
the embedded code at that failing input. -/
theorem c1_truncated_jpeg_crashes : readBytes jbufTruncated = Outcome.crashed := by decide

/-- C5: the claim states that a tEXt chunk with no NUL separator is reported
as a typed error, never indexed unconditionally.  The code violates this: on a
CRC-valid tEXt chunk whose payload `"abc"` has no NUL, `parts.next().unwrap()`
in src/png.rs line 66 unwraps `None` (a Rust panic).  This theorem evaluates
the embedded code at that failing input. -/
theorem c5_text_without_nul_crashes : readBytes pbufTextNoNul = Outcome.crashed := by decide

/-- C10: the claim states `read_bytes` on a buffer shorter than 4 bytes
returns `TooShort(n)` with `n` the buffer length.  The code hard-codes
`TooShort(0)` (src/lib.rs line 173): the 3-byte buffer `[0,0,0]` yields
`TooShort 0`, not `TooShort 3`. -/
theorem c10_too_short_returns_zero :
    readBytes [0, 0, 0] = Outcome.error (.tooShort 0) ∧ ([0, 0, 0] : List Nat).length = 3 := by
  decide

/-! ## C3: which dimension-bearing segment wins -/

/-- C3 counterexample: in `jbufTwoSof` the scanner processes two SOF segments;
the first carries (width 2, height 1), yet the successful result carries the
second one's (width 4, height 3).  The first recorded pair is overwritten, so
the claim "no later dimension-bearing segment changes it" is false. -/
theorem c3_counterexample :
    readJpegData jbufTwoSof = Outcome.ok ⟨4, 3, []⟩ ∧
    (jpegTrace jbufTwoSof.length jbufTwoSof 2).filter (fun t => isSofMarker t.marker) =
      [⟨2, 0xffc0, [8, 0, 1, 0, 2]⟩, ⟨11, 0xffc1, [8, 0, 3, 0, 4]⟩] ∧
    sofWidth ⟨2, 0xffc0, [8, 0, 1, 0, 2]⟩ = 2 ∧ (4 : Nat) ≠ 2 := by
  decide

/-! ## C6: stopping at EOI / SOS -/

/-- C6 counterexample: the claim states that when dimensions were already
recorded, scanning succeeds even when the SOS declared length exceeds the
remaining buffer.  In `jbufSosOverrun` the SOF has recorded (2, 1), but the
SOS segment's declared length `0xffff` fails the length check inside
`read_segment` before the stop branch is reached, so the scan errors. -/
theorem c6_counterexample :
    readBytes jbufSosOverrun = Outcome.error (.jpeg (.invalidSegmentLength 0xffff)) := by
  decide

/-! ## C7: a second SOI mid-stream -/

/-- C7 counterexample: the claim states a second SOI mid-stream is a no-op
continuation, not an error.  In the code, `read_marker` returns length 0 for
SOI, which then fails the `len < 2` check: `[ff d8 ff d8]` yields
`InvalidSegmentLength(0)`. -/
theorem c7_counterexample :
    readBytes jbufTwoSoi = Outcome.error (.jpeg (.invalidSegmentLength 0)) := by decide

/-- In-bounds reads through `getD` recover the byte reported by `get?`. -/
theorem getD_of_getQ {l : List Nat} {n a : Nat} (h : l.get? n = some a) : l.getD n 0 = a := by
  rw [List.getD_eq_get?, h]; rfl

/-- C7 (amended): a second SOI marker encountered mid-stream is rejected with
`InvalidSegmentLength(0)`: `read_marker` reports length 0 for SOI and
`read_segment`'s `len < 2` check turns that into an error. -/
theorem c7_soi_midstream_errors (fuel : Nat) (buf : List Nat) (pos : Nat)
    (comments : List (List Nat)) (dims : Option (Nat × Nat))
    (h0 : buf.get? pos = some 0xff) (h1 : buf.get? (pos + 1) = some 0xd8) :
    readJpegLoop (fuel + 1) buf pos comments dims =
      Outcome.error (.invalidSegmentLength 0) := by
  have hplen : pos + 1 < buf.length := (List.get?_eq_some.mp h1).1
  have hgd0 : buf.getD pos 0 = 0xff := getD_of_getQ h0
  have hgd1 : buf.getD (pos + 1) 0 = 0xd8 := getD_of_getQ h1
  have hmarker : be16at buf pos = 0xffd8 := by
    unfold be16at; rw [hgd0, hgd1]
  have hrm : readMarker buf pos = Outcome.ok ((0xffd8, 0), pos + 2) := by
    unfold readMarker
    rw [if_neg (by omega), hmarker, if_pos (Or.inl rfl)]
  have hseg : readSegment buf pos = Outcome.error (.invalidSegmentLength 0) := by
    unfold readSegment
    rw [if_pos h0]
    rw [if_neg (not_not_intro h0)]
    rw [if_neg (fun hc => absurd (h1.symm.trans hc) (by decide))]
    rw [if_neg (by omega)]
    rw [hrm]
    simp
  unfold readJpegLoop
  rw [hseg]

/-- C7 witness. -/
theorem c7_witness :
    readJpegLoop 2 jbufTwoSoi 2 [] none = Outcome.error (.invalidSegmentLength 0) :=
  c7_soi_midstream_errors 1 jbufTwoSoi 2 [] none (by decide) (by decide)

/-- C6 (amended): reaching EOI stops the scan on the success path, and
reaching an SOS segment whose declared length passes the segment-length check
stops the scan on the success path without the payload being inspected; but an
SOS marker whose declared length is less than 2 or overruns the remaining
buffer is rejected with `InvalidSegmentLength` by `read_segment` before the
stop branch is reached. -/
theorem c6_eoi_sos_stop :
    (∀ fuel buf pos comments dims, buf.get? pos = some 0xff →
      buf.get? (pos + 1) = some 0xd9 →
      readJpegLoop (fuel + 1) buf pos comments dims = finishJpeg pos comments dims)
    ∧ (∀ fuel buf pos comments dims seg pos',
      readSegment buf pos = Outcome.ok (some seg, pos') → seg.marker = 0xffda →
      readJpegLoop (fuel + 1) buf pos comments dims = finishJpeg pos' comments dims)
    ∧ (∀ fuel buf pos comments dims, buf.get? pos = some 0xff →
      buf.get? (pos + 1) = some 0xda → pos + 3 < buf.length →
      (be16at buf (pos + 2) < 2 ∨ pos + 4 + be16at buf (pos + 2) > buf.length) →
      readJpegLoop (fuel + 1) buf pos comments dims =
        Outcome.error (.invalidSegmentLength (be16at buf (pos + 2)))) := by
  refine ⟨?_, ?_, ?_⟩
  · intro fuel buf pos comments dims h0 h1
    have hseg : readSegment buf pos = Outcome.ok (none, pos) := by
      unfold readSegment
      rw [if_pos h0, if_neg (not_not_intro h0), if_pos h1]
    unfold readJpegLoop
    rw [hseg]
  · intro fuel buf pos comments dims seg pos' hseg hm
    unfold readJpegLoop
    simp only [hseg, hm]
    rw [if_neg (by decide), if_pos (by decide)]
  · intro fuel buf pos comments dims h0 h1 h3 hbad
    have hgd0 : buf.getD pos 0 = 0xff := getD_of_getQ h0
    have hgd1 : buf.getD (pos + 1) 0 = 0xda := getD_of_getQ h1
    have hmarker : be16at buf pos = 0xffda := by
      unfold be16at; rw [hgd0, hgd1]
    have hrm : readMarker buf pos =
        Outcome.ok ((0xffda, be16at buf (pos + 2)), pos + 4) := by
      unfold readMarker
      rw [if_neg (by omega), hmarker, if_neg (by decide), if_neg (by omega)]
    have hseg : readSegment buf pos =
        Outcome.error (.invalidSegmentLength (be16at buf (pos + 2))) := by
      unfold readSegment
      rw [if_pos h0]
      rw [if_neg (not_not_intro h0)]
      rw [if_neg (fun hc => absurd (h1.symm.trans hc) (by decide))]
      rw [if_neg (by omega)]
      simp only [hrm]
      rw [if_pos hbad]
    unfold readJpegLoop
    rw [hseg]

/-- C6 witness. -/
theorem c6_witness :
    readJpegLoop 1 jbufOneSof 11 [] (some (2, 1)) = finishJpeg 11 [] (some (2, 1)) ∧
    readJpegLoop 1 jbufSosOk 2 [] (some (9, 9)) = finishJpeg 6 [] (some (9, 9)) ∧
    readJpegLoop 1 jbufSosOverrun 11 [] (some (2, 1)) =
      Outcome.error (.invalidSegmentLength 0xffff) :=
  ⟨c6_eoi_sos_stop.1 0 jbufOneSof 11 [] (some (2, 1)) (by decide) (by decide),
   c6_eoi_sos_stop.2.1 0 jbufSosOk 2 [] (some (9, 9)) ⟨2, 0xffda, []⟩ 6 (by decide) rfl,
   by
     have h := c6_eoi_sos_stop.2.2 0 jbufSosOverrun 11 [] (some (2, 1))
       (by decide) (by decide) (by decide) (by decide)
     simpa using h⟩

/-! ## C8: the segment length check -/

/-- C8 counterexample: the claim states a segment whose payload ends exactly
at the end of the buffer is accepted.  In `jbufExactFit` (8 bytes) the APP0
segment declares length 4, so its 2-byte payload occupies indices 6–7 and ends
exactly at the buffer end, yet the check `position + len > buf.len()`
(src/jpeg.rs line 134) compares `6 + 4 > 8` and rejects it. -/
theorem c8_counterexample :
    jbufExactFit.length = 8 ∧
    readBytes jbufExactFit = Outcome.error (.jpeg (.invalidSegmentLength 4)) := by decide

/-- C8 (amended): for a marker with a length field, `read_segment` returns
`InvalidSegmentLength(len)` exactly when the declared length is `< 2` or
`position + len` exceeds the buffer length, where `position` already sits
after the length field — so the declared length must fit as measured from
there, which strands the final two buffer bytes: a payload ending exactly at
the end of the buffer (or one byte before) is rejected, not accepted. -/
theorem c8_segment_length_check (buf : List Nat) (pos b : Nat)
    (h0 : buf.get? pos = some 0xff) (h1 : buf.get? (pos + 1) = some b)
    (hd9 : b ≠ 0xd9) (hd8 : b ≠ 0xd8) (h3 : pos + 3 < buf.length) :
    readSegment buf pos = Outcome.error (.invalidSegmentLength (be16at buf (pos + 2))) ↔
      (be16at buf (pos + 2) < 2 ∨ pos + 4 + be16at buf (pos + 2) > buf.length) := by
  have hplen : pos + 1 < buf.length := (List.get?_eq_some.mp h1).1
  have hgd0 : buf.getD pos 0 = 0xff := getD_of_getQ h0
  have hgd1 : buf.getD (pos + 1) 0 = b := getD_of_getQ h1
  have hmarker : be16at buf pos = 65280 + b := by
    unfold be16at; rw [hgd0, hgd1]
  have hrm : readMarker buf pos =
      Outcome.ok ((65280 + b, be16at buf (pos + 2)), pos + 4) := by
    unfold readMarker
    rw [if_neg (by omega), hmarker, if_neg (by omega), if_neg (by omega)]
  have hred : readSegment buf pos =
      if be16at buf (pos + 2) < 2 ∨ pos + 4 + be16at buf (pos + 2) > buf.length then
        Outcome.error (.invalidSegmentLength (be16at buf (pos + 2)))
      else
        Outcome.ok (some ⟨pos, 65280 + b, extractBytes buf (pos + 4) (be16at buf (pos + 2) - 2)⟩,
          pos + 4 + (be16at buf (pos + 2) - 2)) := by
    unfold readSegment
    rw [if_pos h0]
    rw [if_neg (not_not_intro h0)]
    rw [if_neg (fun hc => hd9 (Option.some.inj (h1.symm.trans hc)))]
    rw [if_neg (by omega)]
    simp only [hrm]
  constructor
  · intro herr
    by_contra hcond
    rw [hred, if_neg hcond] at herr
    exact Outcome.noConfusion herr
  · intro hcond
    rw [hred, if_pos hcond]

/-- C8 witness: the segment of `jbufExactFit` declares length 4 and its
payload ends exactly at the buffer end; the check rejects it. -/
theorem c8_witness :
    be16at jbufExactFit 4 = 4 ∧
    readSegment jbufExactFit 2 =
      Outcome.error (.invalidSegmentLength (be16at jbufExactFit 4)) :=
  ⟨by decide,
   (c8_segment_length_check jbufExactFit 2 0xe0 (by decide) (by decide) (by decide)
     (by decide) (by decide)).mpr (by decide)⟩

/-! ## C9: the PNG loop guard -/

/-- C9 counterexample: the claim states a chunk occupying exactly the final 12
bytes of the buffer is still read and validated.  In `pbufTail12` the final 12
bytes form a chunk whose stored CRC (0) is wrong, yet the scan succeeds: the
guard `pos + 12 < buf.len()` (src/png.rs line 22) is strict, so at
`pos = 33 = 45 - 12` the loop exits without touching the chunk. -/
theorem c9_counterexample :
    pbufTail12.length = 45 ∧
    readPngData pbufTail12 = Outcome.ok ⟨2, 3, []⟩ ∧
    crc32 (chunkTypeAt pbufTail12 33 ++ chunkDataAt pbufTail12 33) ≠ chunkCrcAt pbufTail12 33 := by
  decide

/-- C9 (amended): the PNG scanner attempts a further chunk only while strictly
more than 12 bytes remain at the cursor; with 12 or fewer bytes remaining the
loop exits, so a chunk occupying exactly the final 12 bytes is ignored. -/
theorem c9_loop_requires_thirteen_bytes (fuel : Nat) (buf : List Nat) (pos : Nat)
    (comments : List (List Nat)) (dims : Option (Nat × Nat))
    (h : buf.length ≤ pos + 12) :
    readPngLoop fuel buf pos comments dims = finishPng comments dims := by
  cases fuel with
  | zero => rfl
  | succ n =>
    unfold readPngLoop
    rw [if_neg (by omega)]

/-- C9 witness. -/
theorem c9_witness :
    readPngLoop 5 pbufTail12 33 [] (some (2, 3)) = finishPng [] (some (2, 3)) :=
  c9_loop_requires_thirteen_bytes 5 pbufTail12 33 [] (some (2, 3)) (by decide)

/-! ## The dimension invariant of the JPEG loop -/

/-- The conversion `finishJpeg` succeeds exactly from a recorded dimension pair. -/
theorem finishJpeg_ok {p : Nat} {c : List (List Nat)} {d : Option (Nat × Nat)}
    {meta : ImageMetadata} (h : finishJpeg p c d = Outcome.ok meta) :
    d = some (meta.width, meta.height) := by
  cases d with
  | none => exact absurd h (by simp [finishJpeg])
  | some wh =>
    obtain ⟨w, ht⟩ := wh
    unfold finishJpeg at h
    cases h
    rfl

/-- A trace with no SOF segment leaves the dimension state unchanged. -/
theorem tracedJpegDims_no_sof (l : List JpegSegment) (d : Option (Nat × Nat))
    (h : l.filter (fun t => isSofMarker t.marker) = []) : tracedJpegDims d l = d := by
  induction l generalizing d with
  | nil => rfl
  | cons s rest ih =>
    rw [List.filter_cons] at h
    cases hs : isSofMarker s.marker with
    | true => rw [hs] at h; simp at h
    | false =>
      rw [hs] at h
      simp only [Bool.false_eq_true, if_false] at h
      unfold tracedJpegDims
      rw [hs]
      simp only [Bool.false_eq_true, if_false]
      exact ih d h

/-- If the trace contains exactly one SOF segment, the folded dimension state
is that segment's. -/
theorem tracedJpegDims_single (l : List JpegSegment) (s : JpegSegment)
    (d : Option (Nat × Nat))
    (h : l.filter (fun t => isSofMarker t.marker) = [s]) :
    tracedJpegDims d l = some (sofWidth s, sofHeight s) := by
  induction l generalizing d with
  | nil => simp at h
  | cons t rest ih =>
    rw [List.filter_cons] at h
    cases hs : isSofMarker t.marker with
    | true =>
      rw [hs] at h
      simp only [if_true, List.cons.injEq] at h
      obtain ⟨rfl, hrest⟩ := h
      unfold tracedJpegDims
      rw [hs]
      simp only [if_true]
      exact tracedJpegDims_no_sof rest _ hrest
    | false =>
      rw [hs] at h
      simp only [Bool.false_eq_true, if_false] at h
      unfold tracedJpegDims
      rw [hs]
      simp only [Bool.false_eq_true, if_false]
      exact ih d h

/-- If the trace's SOF segments end with `s`, the folded dimension state is
`s`'s: the last SOF wins. -/
theorem tracedJpegDims_last (l : List JpegSegment) (s : JpegSegment)
    (pre : List JpegSegment) (d : Option (Nat × Nat))
    (h : l.filter (fun t => isSofMarker t.marker) = pre ++ [s]) :
    tracedJpegDims d l = some (sofWidth s, sofHeight s) := by
  induction l generalizing d pre with
  | nil => exact absurd h.symm (List.append_ne_nil_of_right_ne_nil pre (by simp))
  | cons t rest ih =>
    rw [List.filter_cons] at h
    cases hs : isSofMarker t.marker with
    | true =>
      rw [hs] at h
      simp only [if_true] at h
      unfold tracedJpegDims
      rw [hs]
      simp only [if_true]
      cases pre with
      | nil =>
        simp only [List.nil_append, List.cons.injEq] at h
        obtain ⟨rfl, hrest⟩ := h
        exact tracedJpegDims_no_sof rest _ hrest
      | cons p0 pre' =>
        simp only [List.cons_append, List.cons.injEq] at h
        exact ih pre' _ h.2
    | false =>
      rw [hs] at h
      simp only [Bool.false_eq_true, if_false] at h
      unfold tracedJpegDims
      rw [hs]
      simp only [Bool.false_eq_true, if_false]
      exact ih pre d h

/-- Unfolding `jpegTrace` one step when `read_segment` returns a segment. -/
theorem jpegTrace_succ_some {buf : List Nat} {pos : Nat} {seg : JpegSegment} {pos' : Nat}
    (n : Nat) (hseg : readSegment buf pos = Outcome.ok (some seg, pos')) :
    jpegTrace (n + 1) buf pos =
      if seg.marker < 0xff01 ∨ seg.marker = 0xffff then [seg]
      else if seg.marker = 0xffd9 ∨ seg.marker = 0xffda then [seg]
      else if isSofMarker seg.marker then
        if seg.data.length < 5 then [seg] else seg :: jpegTrace n buf pos'
      else seg :: jpegTrace n buf pos' := by
  conv_lhs => unfold jpegTrace
  simp only [hseg]

/-- Unfolding `jpegTrace` one step when `read_segment` reports end of data. -/
theorem jpegTrace_succ_none {buf : List Nat} {pos pos' : Nat} (n : Nat)
    (hseg : readSegment buf pos = Outcome.ok (none, pos')) :
    jpegTrace (n + 1) buf pos = [] := by
  conv_lhs => unfold jpegTrace
  simp only [hseg]

/-- Dimension invariant of the JPEG scan: a successful scan returns exactly the
dimension state obtained by folding the processed segments (each SOF segment
overwriting the recorded pair) over the initial state. -/
theorem readJpegLoop_ok_dims (fuel : Nat) (buf : List Nat) :
    ∀ pos comments dims meta,
      readJpegLoop fuel buf pos comments dims = Outcome.ok meta →
      tracedJpegDims dims (jpegTrace fuel buf pos) = some (meta.width, meta.height) := by
  induction fuel with
  | zero =>
    intro pos c d meta h
    unfold readJpegLoop at h
    unfold jpegTrace
    exact (finishJpeg_ok h).symm ▸ rfl
  | succ n ih =>
    intro pos c d meta h
    unfold readJpegLoop at h
    cases hseg : readSegment buf pos with
    | crashed => rw [hseg] at h; exact absurd h (by simp)
    | error e => rw [hseg] at h; exact absurd h (by simp)
    | ok v =>
      obtain ⟨oseg, pos'⟩ := v
      rw [hseg] at h
      cases oseg with
      | none =>
        simp only at h
        rw [jpegTrace_succ_none n hseg]
        exact (finishJpeg_ok h).symm ▸ rfl
      | some seg =>
        simp only at h
        rw [jpegTrace_succ_some n hseg]
        by_cases hinv : seg.marker < 0xff01 ∨ seg.marker = 0xffff
        · rw [if_pos hinv] at h; exact absurd h (by simp)
        · rw [if_neg hinv] at h
          rw [if_neg hinv]
          by_cases hstop : seg.marker = 0xffd9 ∨ seg.marker = 0xffda
          · rw [if_pos hstop] at h
            rw [if_pos hstop]
            have hnsof : isSofMarker seg.marker = false := by
              rcases hstop with h9 | h9
              · rw [h9]; decide
              · rw [h9]; decide
            have hd := finishJpeg_ok h
            unfold tracedJpegDims
            rw [hnsof]
            simp only [Bool.false_eq_true, if_false]
            exact hd.symm ▸ rfl
          · rw [if_neg hstop] at h
            rw [if_neg hstop]
            cases hsof : isSofMarker seg.marker with
            | true =>
              rw [hsof] at h
              simp only [if_true] at h
              simp only [if_true]
              by_cases hlen5 : seg.data.length < 5
              · have hrs : readSof seg = Outcome.error (.sofDataTooShort seg.position) := by
                  unfold readSof; rw [if_pos hlen5]
                simp only [hrs] at h
                exact Outcome.noConfusion h
              · have hrs : readSof seg = Outcome.ok (sofWidth seg, sofHeight seg) := by
                  unfold readSof; rw [if_neg hlen5]
                simp only [hrs] at h
                rw [if_neg hlen5]
                have hrec := ih pos' c (some (sofWidth seg, sofHeight seg)) meta h
                unfold tracedJpegDims
                rw [hsof]
                simpa only [if_true] using hrec
            | false =>
              rw [hsof] at h
              simp only [Bool.false_eq_true, if_false] at h
              simp only [Bool.false_eq_true, if_false]
              by_cases hcom : seg.marker = 0xfffe
              · rw [if_pos hcom] at h
                have hrec := ih pos' (c ++ [seg.data]) d meta h
                unfold tracedJpegDims
                rw [hsof]
                simpa only [Bool.false_eq_true, if_false] using hrec
              · rw [if_neg hcom] at h
                have hrec := ih pos' c d meta h
                unfold tracedJpegDims
                rw [hsof]
                simpa only [Bool.false_eq_true, if_false] using hrec

/-! ## The dimension invariant of the PNG loop -/

/-- The conversion `finishPng` succeeds exactly from a recorded dimension pair. -/
theorem finishPng_ok {c : List (List Nat)} {d : Option (Nat × Nat)}
    {meta : ImageMetadata} (h : finishPng c d = Outcome.ok meta) :
    d = some (meta.width, meta.height) := by
  cases d with
  | none => exact absurd h (by simp [finishPng])
  | some wh =>
    obtain ⟨w, ht⟩ := wh
    unfold finishPng at h
    cases h
    rfl

/-- One-step unfolding of `readPngLoop` with the `let` bindings inlined. -/
theorem readPngLoop_succ (fuel : Nat) (buf : List Nat) (pos : Nat)
    (comments : List (List Nat)) (dims : Option (Nat × Nat)) :
    readPngLoop (fuel + 1) buf pos comments dims =
      if pos + 12 < buf.length then
        if pos + 8 + be32at buf pos + 4 > buf.length then Outcome.error .invalidChunkCrc
        else if crc32 (extractBytes buf (pos + 4) 4 ++ extractBytes buf (pos + 8) (be32at buf pos)) ≠
            be32at buf (pos + 8 + be32at buf pos) then Outcome.error .invalidChunkCrc
        else if extractBytes buf (pos + 4) 4 = ihdrType then
          if be32at buf pos ≠ 13 then Outcome.error (.invalidIHDRLength (be32at buf pos))
          else readPngLoop fuel buf (pos + 12 + be32at buf pos) comments
            (some (be32at (extractBytes buf (pos + 8) (be32at buf pos)) 0,
              be32at (extractBytes buf (pos + 8) (be32at buf pos)) 4))
        else if extractBytes buf (pos + 4) 4 = textType then
          match splitAtNul (extractBytes buf (pos + 8) (be32at buf pos)) with
          | none => Outcome.crashed
          | some (keyword, text) =>
            if keyword = commentKeyword then
              readPngLoop fuel buf (pos + 12 + be32at buf pos) (comments ++ [text]) dims
            else readPngLoop fuel buf (pos + 12 + be32at buf pos) comments dims
        else if extractBytes buf (pos + 4) 4 = iendType then finishPng comments dims
        else readPngLoop fuel buf (pos + 12 + be32at buf pos) comments dims
      else finishPng comments dims := rfl

/-- One-step unfolding of `pngTrace` with the `let` bindings inlined. -/
theorem pngTrace_succ (fuel : Nat) (buf : List Nat) (pos : Nat) :
    pngTrace (fuel + 1) buf pos =
      if pos + 12 < buf.length then
        if pos + 8 + be32at buf pos + 4 > buf.length then []
        else if crc32 (extractBytes buf (pos + 4) 4 ++ extractBytes buf (pos + 8) (be32at buf pos)) ≠
            be32at buf (pos + 8 + be32at buf pos) then [(pos, be32at buf pos)]
        else if extractBytes buf (pos + 4) 4 = ihdrType then
          if be32at buf pos ≠ 13 then [(pos, be32at buf pos)]
          else (pos, be32at buf pos) :: pngTrace fuel buf (pos + 12 + be32at buf pos)
        else if extractBytes buf (pos + 4) 4 = textType then
          match splitAtNul (extractBytes buf (pos + 8) (be32at buf pos)) with
          | none => [(pos, be32at buf pos)]
          | some _ => (pos, be32at buf pos) :: pngTrace fuel buf (pos + 12 + be32at buf pos)
        else if extractBytes buf (pos + 4) 4 = iendType then [(pos, be32at buf pos)]
        else (pos, be32at buf pos) :: pngTrace fuel buf (pos + 12 + be32at buf pos)
      else [] := rfl

/-- A chunk list with no IHDR-typed entry leaves the dimension state
unchanged. -/
theorem pngTracedDims_no_ihdr (buf : List Nat) (l : List (Nat × Nat))
    (d : Option (Nat × Nat))
    (h : l.filter (fun e => decide (chunkTypeAt buf e.1 = ihdrType)) = []) :
    pngTracedDims buf d l = d := by
  induction l generalizing d with
  | nil => rfl
  | cons e rest ih =>
    rw [List.filter_cons] at h
    by_cases he : chunkTypeAt buf e.1 = ihdrType
    · rw [decide_eq_true he] at h
      simp at h
    · rw [decide_eq_false he] at h
      simp only [Bool.false_eq_true, if_false] at h
      unfold pngTracedDims
      rw [if_neg he]
      exact ih d h

/-- If the chunk list contains exactly one IHDR-typed entry, the folded
dimension state is that chunk's. -/
theorem pngTracedDims_single (buf : List Nat) (l : List (Nat × Nat))
    (q L : Nat) (d : Option (Nat × Nat))
    (h : l.filter (fun e => decide (chunkTypeAt buf e.1 = ihdrType)) = [(q, L)]) :
    pngTracedDims buf d l =
      some (be32at (chunkDataAt buf q) 0, be32at (chunkDataAt buf q) 4) := by
  induction l generalizing d with
  | nil => simp at h
  | cons e rest ih =>
    rw [List.filter_cons] at h
    by_cases he : chunkTypeAt buf e.1 = ihdrType
    · rw [decide_eq_true he] at h
      simp only [if_true, List.cons.injEq] at h
      obtain ⟨rfl, hrest⟩ := h
      unfold pngTracedDims
      rw [if_pos he]
      exact pngTracedDims_no_ihdr buf rest _ hrest
    · rw [decide_eq_false he] at h
      simp only [Bool.false_eq_true, if_false] at h
      unfold pngTracedDims
      rw [if_neg he]
      exact ih d h

/-- If the chunk list's IHDR-typed entries end with `(q, L)`, the folded
dimension state is that chunk's: the last IHDR wins. -/
theorem pngTracedDims_last (buf : List Nat) (l : List (Nat × Nat))
    (q L : Nat) (pre : List (Nat × Nat)) (d : Option (Nat × Nat))
    (h : l.filter (fun e => decide (chunkTypeAt buf e.1 = ihdrType)) = pre ++ [(q, L)]) :
    pngTracedDims buf d l =
      some (be32at (chunkDataAt buf q) 0, be32at (chunkDataAt buf q) 4) := by
  induction l generalizing d pre with
  | nil => exact absurd h.symm (List.append_ne_nil_of_right_ne_nil pre (by simp))
  | cons e rest ih =>
    rw [List.filter_cons] at h
    by_cases he : chunkTypeAt buf e.1 = ihdrType
    · rw [decide_eq_true he] at h
      simp only [if_true] at h
      unfold pngTracedDims
      rw [if_pos he]
      cases pre with
      | nil =>
        simp only [List.nil_append, List.cons.injEq] at h
        obtain ⟨rfl, hrest⟩ := h
        exact pngTracedDims_no_ihdr buf rest _ hrest
      | cons p0 pre' =>
        simp only [List.cons_append, List.cons.injEq] at h
        exact ih pre' _ h.2
    · rw [decide_eq_false he] at h
      simp only [Bool.false_eq_true, if_false] at h
      unfold pngTracedDims
      rw [if_neg he]
      exact ih pre d h

/-- Dimension invariant of the PNG scan: a successful scan returns exactly the
dimension state obtained by folding the processed chunks (each IHDR chunk
overwriting the recorded pair) over the initial state. -/
theorem readPngLoop_ok_dims (fuel : Nat) (buf : List Nat) :
    ∀ pos comments dims meta,
      readPngLoop fuel buf pos comments dims = Outcome.ok meta →
      pngTracedDims buf dims (pngTrace fuel buf pos) = some (meta.width, meta.height) := by
  induction fuel with
  | zero =>
    intro pos c d meta h
    exact (finishPng_ok h).symm ▸ rfl
  | succ n ih =>
    intro pos c d meta h
    rw [readPngLoop_succ] at h
    rw [pngTrace_succ]
    by_cases hguard : pos + 12 < buf.length
    case neg =>
      rw [if_neg hguard] at h
      rw [if_neg hguard]
      exact (finishPng_ok h).symm ▸ rfl
    rw [if_pos hguard] at h
    rw [if_pos hguard]
    by_cases hbounds : pos + 8 + be32at buf pos + 4 > buf.length
    · rw [if_pos hbounds] at h; exact Outcome.noConfusion h
    rw [if_neg hbounds] at h
    rw [if_neg hbounds]
    by_cases hcrc : crc32 (extractBytes buf (pos + 4) 4 ++
        extractBytes buf (pos + 8) (be32at buf pos)) ≠ be32at buf (pos + 8 + be32at buf pos)
    · rw [if_pos hcrc] at h; exact Outcome.noConfusion h
    rw [if_neg hcrc] at h
    rw [if_neg hcrc]
    by_cases hihdr : extractBytes buf (pos + 4) 4 = ihdrType
    · rw [if_pos hihdr] at h
      rw [if_pos hihdr]
      by_cases hlen : be32at buf pos ≠ 13
      · rw [if_pos hlen] at h; exact Outcome.noConfusion h
      · rw [if_neg hlen] at h
        rw [if_neg hlen]
        have hrec := ih (pos + 12 + be32at buf pos) c
          (some (be32at (extractBytes buf (pos + 8) (be32at buf pos)) 0,
            be32at (extractBytes buf (pos + 8) (be32at buf pos)) 4)) meta h
        unfold pngTracedDims
        simp only [chunkTypeAt, chunkDataAt]
        rw [if_pos hihdr]
        exact hrec
    · rw [if_neg hihdr] at h
      rw [if_neg hihdr]
      by_cases htext : extractBytes buf (pos + 4) 4 = textType
      · rw [if_pos htext] at h
        rw [if_pos htext]
        cases hsp : splitAtNul (extractBytes buf (pos + 8) (be32at buf pos)) with
        | none =>
          rw [hsp] at h
          exact Outcome.noConfusion h
        | some kt =>
          obtain ⟨kw, tx⟩ := kt
          simp only [hsp] at h
          simp only [hsp]
          by_cases hkey : kw = commentKeyword
          · rw [if_pos hkey] at h
            have hrec := ih (pos + 12 + be32at buf pos) (c ++ [tx]) d meta h
            unfold pngTracedDims
            simp only [chunkTypeAt, chunkDataAt]
            rw [if_neg hihdr]
            exact hrec
          · rw [if_neg hkey] at h
            have hrec := ih (pos + 12 + be32at buf pos) c d meta h
            unfold pngTracedDims
            simp only [chunkTypeAt, chunkDataAt]
            rw [if_neg hihdr]
            exact hrec
      · rw [if_neg htext] at h
        rw [if_neg htext]
        by_cases hiend : extractBytes buf (pos + 4) 4 = iendType
        · rw [if_pos hiend] at h
          rw [if_pos hiend]
          have hd := finishPng_ok h
          unfold pngTracedDims
          simp only [chunkTypeAt]
          rw [if_neg hihdr]
          exact hd.symm ▸ rfl
        · rw [if_neg hiend] at h
          rw [if_neg hiend]
          have hrec := ih (pos + 12 + be32at buf pos) c d meta h
          unfold pngTracedDims
          simp only [chunkTypeAt, chunkDataAt]
          rw [if_neg hihdr]
          exact hrec

/-! ## From the dispatcher to the scanners -/

/-- A successful `read_bytes` on a JPEG-magic buffer is a successful
`read_jpeg_data`. -/
theorem readBytes_jpeg {buf : List Nat} {meta : ImageMetadata}
    (h : readBytes buf = Outcome.ok meta) (h2 : buf.take 2 = [0xff, 0xd8]) :
    readJpegData buf = Outcome.ok meta := by
  unfold readBytes at h
  by_cases hlen : buf.length < 4
  · rw [if_pos hlen] at h; exact Outcome.noConfusion h
  · rw [if_neg hlen, if_pos h2] at h
    cases hj : readJpegData buf with
    | ok m =>
      rw [hj] at h
      simp only [mapOutcomeErr] at h
      injection h with hm
      rw [hm]
    | error e =>
      rw [hj] at h
      simp only [mapOutcomeErr] at h
      exact Outcome.noConfusion h
    | crashed =>
      rw [hj] at h
      simp only [mapOutcomeErr] at h
      exact Outcome.noConfusion h

/-- A successful `read_bytes` on a PNG-magic buffer is a successful
`read_png_data`. -/
theorem readBytes_png {buf : List Nat} {meta : ImageMetadata}
    (h : readBytes buf = Outcome.ok meta) (h4 : buf.take 4 = [0x89, 0x50, 0x4e, 0x47]) :
    readPngData buf = Outcome.ok meta := by
  have h2 : buf.take 2 = [0x89, 0x50] := by
    have ht : (buf.take 4).take 2 = buf.take 2 := by
      rw [List.take_take]
      norm_num
    rw [← ht, h4]
    rfl
  unfold readBytes at h
  by_cases hlen : buf.length < 4
  · rw [if_pos hlen] at h; exact Outcome.noConfusion h
  · rw [if_neg hlen, if_neg (by rw [h2]; decide), if_pos h4] at h
    cases hp : readPngData buf with
    | ok m =>
      rw [hp] at h
      simp only [mapOutcomeErr] at h
      injection h with hm
      rw [hm]
    | error e =>
      rw [hp] at h
      simp only [mapOutcomeErr] at h
      exact Outcome.noConfusion h
    | crashed =>
      rw [hp] at h
      simp only [mapOutcomeErr] at h
      exact Outcome.noConfusion h

/-! ## C2 and C3: where the returned dimensions come from -/

/-- C2: on every buffer where decoding succeeds, if the JPEG scan processed
exactly one SOF segment, the height is the big-endian 16-bit value at payload
offsets 1–2 and the width the one at offsets 3–4 (height precedes width on the
wire); and if the PNG scan processed exactly one IHDR chunk, the width and
height are the first and second big-endian 32-bit fields of the IHDR
payload. -/
theorem c2_dimensions_from_wire :
    (∀ buf meta s, readBytes buf = Outcome.ok meta → buf.take 2 = [0xff, 0xd8] →
      (jpegTrace buf.length buf 2).filter (fun t => isSofMarker t.marker) = [s] →
      meta.height = 256 * s.data.getD 1 0 + s.data.getD 2 0 ∧
      meta.width = 256 * s.data.getD 3 0 + s.data.getD 4 0)
    ∧ (∀ buf meta q L, readBytes buf = Outcome.ok meta →
      buf.take 4 = [0x89, 0x50, 0x4e, 0x47] →
      (pngTrace buf.length buf 8).filter
        (fun e => decide (chunkTypeAt buf e.1 = ihdrType)) = [(q, L)] →
      meta.width = be32at (chunkDataAt buf q) 0 ∧
      meta.height = be32at (chunkDataAt buf q) 4) := by
  constructor
  · intro buf meta s h h2 hfil
    have hj := readBytes_jpeg h h2
    unfold readJpegData at hj
    have hinv := readJpegLoop_ok_dims buf.length buf 2 [] none meta hj
    rw [tracedJpegDims_single _ s none hfil] at hinv
    have hp := Option.some.inj hinv
    have hw : sofWidth s = meta.width := congrArg Prod.fst hp
    have hh : sofHeight s = meta.height := congrArg Prod.snd hp
    exact ⟨by rw [← hh]; rfl, by rw [← hw]; rfl⟩
  · intro buf meta q L h h4 hfil
    have hg := readBytes_png h h4
    unfold readPngData at hg
    have hinv := readPngLoop_ok_dims buf.length buf 8 [] none meta hg
    rw [pngTracedDims_single buf _ q L none hfil] at hinv
    have hp := Option.some.inj hinv
    exact ⟨(congrArg Prod.fst hp).symm, (congrArg Prod.snd hp).symm⟩

/-- C2 witness. -/
theorem c2_witness :
    ((ImageMetadata.mk 2 1 []).height =
        256 * ([8, 0, 1, 0, 2] : List Nat).getD 1 0 + ([8, 0, 1, 0, 2] : List Nat).getD 2 0 ∧
      (ImageMetadata.mk 2 1 []).width =
        256 * ([8, 0, 1, 0, 2] : List Nat).getD 3 0 + ([8, 0, 1, 0, 2] : List Nat).getD 4 0) ∧
    ((ImageMetadata.mk 2 3 []).width = be32at (chunkDataAt pbufIhdr 8) 0 ∧
      (ImageMetadata.mk 2 3 []).height = be32at (chunkDataAt pbufIhdr 8) 4) :=
  ⟨c2_dimensions_from_wire.1 jbufOneSof ⟨2, 1, []⟩ ⟨2, 0xffc0, [8, 0, 1, 0, 2]⟩
      (by decide) (by decide) (by decide),
   c2_dimensions_from_wire.2 pbufIhdr ⟨2, 3, []⟩ 8 13 (by decide) (by decide) (by decide)⟩

/-- C3 (amended): a successful result carries the dimensions of the LAST SOF
segment (JPEG) or the LAST IHDR chunk (PNG) the scanner processed: each later
dimension-bearing segment or chunk overwrites the previously recorded pair
(`dimensions.replace` in src/jpeg.rs line 63, reassignment in src/png.rs
line 60). -/
theorem c3_last_dimensions_win :
    (∀ buf meta pre s, readBytes buf = Outcome.ok meta → buf.take 2 = [0xff, 0xd8] →
      (jpegTrace buf.length buf 2).filter (fun t => isSofMarker t.marker) = pre ++ [s] →
      meta.height = 256 * s.data.getD 1 0 + s.data.getD 2 0 ∧
      meta.width = 256 * s.data.getD 3 0 + s.data.getD 4 0)
    ∧ (∀ buf meta pre q L, readBytes buf = Outcome.ok meta →
      buf.take 4 = [0x89, 0x50, 0x4e, 0x47] →
      (pngTrace buf.length buf 8).filter
        (fun e => decide (chunkTypeAt buf e.1 = ihdrType)) = pre ++ [(q, L)] →
      meta.width = be32at (chunkDataAt buf q) 0 ∧
      meta.height = be32at (chunkDataAt buf q) 4) := by
  constructor
  · intro buf meta pre s h h2 hfil
    have hj := readBytes_jpeg h h2
    unfold readJpegData at hj
    have hinv := readJpegLoop_ok_dims buf.length buf 2 [] none meta hj
    rw [tracedJpegDims_last _ s pre none hfil] at hinv
    have hp := Option.some.inj hinv
    have hw : sofWidth s = meta.width := congrArg Prod.fst hp
    have hh : sofHeight s = meta.height := congrArg Prod.snd hp
    exact ⟨by rw [← hh]; rfl, by rw [← hw]; rfl⟩
  · intro buf meta pre q L h h4 hfil
    have hg := readBytes_png h h4
    unfold readPngData at hg
    have hinv := readPngLoop_ok_dims buf.length buf 8 [] none meta hg
    rw [pngTracedDims_last buf _ q L pre none hfil] at hinv
    have hp := Option.some.inj hinv
    exact ⟨(congrArg Prod.fst hp).symm, (congrArg Prod.snd hp).symm⟩

/-- C3 witness: in a JPEG with two SOF segments and a PNG with two IHDR
chunks, the result carries the last one's dimensions. -/
theorem c3_witness :
    ((ImageMetadata.mk 4 3 []).height =
        256 * ([8, 0, 3, 0, 4] : List Nat).getD 1 0 + ([8, 0, 3, 0, 4] : List Nat).getD 2 0 ∧
      (ImageMetadata.mk 4 3 []).width =
        256 * ([8, 0, 3, 0, 4] : List Nat).getD 3 0 + ([8, 0, 3, 0, 4] : List Nat).getD 4 0) ∧
    ((ImageMetadata.mk 4 5 []).width = be32at (chunkDataAt pbufTwoIhdr 33) 0 ∧
      (ImageMetadata.mk 4 5 []).height = be32at (chunkDataAt pbufTwoIhdr 33) 4) :=
  ⟨c3_last_dimensions_win.1 jbufTwoSof ⟨4, 3, []⟩ [⟨2, 0xffc0, [8, 0, 1, 0, 2]⟩]
      ⟨11, 0xffc1, [8, 0, 3, 0, 4]⟩ (by decide) (by decide) (by decide),
   c3_last_dimensions_win.2 pbufTwoIhdr ⟨4, 5, []⟩ [(8, 13)] 33 13
      (by decide) (by decide) (by decide)⟩

/-! ## CRC-32 detects every single-byte change

The per-bit step of the reflected CRC algorithm is a bijection on 32-bit
states, so two byte streams differing in exactly one byte can never share a
CRC-32 checksum. -/

theorem crcPoly_lt : crcPoly < 2 ^ 32 := by decide

theorem crcStep_lt {s : Nat} (h : s < 2 ^ 32) : crcStep s < 2 ^ 32 := by
  unfold crcStep
  by_cases hp : s % 2 = 1
  · rw [if_pos hp]
    exact Nat.xor_lt_two_pow (lt_of_le_of_lt (Nat.div_le_self s 2) h) crcPoly_lt
  · rw [if_neg hp]
    exact lt_of_le_of_lt (Nat.div_le_self s 2) h

theorem crcStep_inj {s t : Nat} (hs : s < 2 ^ 32) (ht : t < 2 ^ 32)
    (h : crcStep s = crcStep t) : s = t := by
  have hlow : ∀ u : Nat, u < 2 ^ 32 → u / 2 < 2 ^ 31 := by intro u hu; omega
  have hhigh : ∀ u : Nat, u < 2 ^ 31 → (u ^^^ crcPoly).testBit 31 = true := by
    intro u hu
    rw [Nat.testBit_xor, Nat.testBit_eq_false_of_lt hu]
    decide
  unfold crcStep at h
  by_cases hps : s % 2 = 1 <;> by_cases hpt : t % 2 = 1
  · rw [if_pos hps, if_pos hpt] at h
    have := Nat.xor_left_inj.mp h
    omega
  · rw [if_pos hps, if_neg hpt] at h
    exfalso
    have hbit := hhigh (s / 2) (hlow s hs)
    rw [h, Nat.testBit_eq_false_of_lt (hlow t ht)] at hbit
    exact Bool.noConfusion hbit
  · rw [if_neg hps, if_pos hpt] at h
    exfalso
    have hbit := hhigh (t / 2) (hlow t ht)
    rw [← h, Nat.testBit_eq_false_of_lt (hlow s hs)] at hbit
    exact Bool.noConfusion hbit
  · rw [if_neg hps, if_neg hpt] at h
    omega

theorem crcRound_lt {s : Nat} (h : s < 2 ^ 32) : crcRound s < 2 ^ 32 :=
  crcStep_lt (crcStep_lt (crcStep_lt (crcStep_lt
    (crcStep_lt (crcStep_lt (crcStep_lt (crcStep_lt h)))))))

theorem crcRound_inj {s t : Nat} (hs : s < 2 ^ 32) (ht : t < 2 ^ 32)
    (h : crcRound s = crcRound t) : s = t := by
  unfold crcRound at h
  have h1 := crcStep_inj (crcStep_lt (crcStep_lt (crcStep_lt (crcStep_lt
    (crcStep_lt (crcStep_lt (crcStep_lt hs)))))))
    (crcStep_lt (crcStep_lt (crcStep_lt (crcStep_lt
    (crcStep_lt (crcStep_lt (crcStep_lt ht))))))) h
  have h2 := crcStep_inj (crcStep_lt (crcStep_lt (crcStep_lt (crcStep_lt
    (crcStep_lt (crcStep_lt hs))))))
    (crcStep_lt (crcStep_lt (crcStep_lt (crcStep_lt
    (crcStep_lt (crcStep_lt ht)))))) h1
  have h3 := crcStep_inj (crcStep_lt (crcStep_lt (crcStep_lt (crcStep_lt
    (crcStep_lt hs)))))
    (crcStep_lt (crcStep_lt (crcStep_lt (crcStep_lt (crcStep_lt ht))))) h2
  have h4 := crcStep_inj (crcStep_lt (crcStep_lt (crcStep_lt (crcStep_lt hs))))
    (crcStep_lt (crcStep_lt (crcStep_lt (crcStep_lt ht)))) h3
  have h5 := crcStep_inj (crcStep_lt (crcStep_lt (crcStep_lt hs)))
    (crcStep_lt (crcStep_lt (crcStep_lt ht))) h4
  have h6 := crcStep_inj (crcStep_lt (crcStep_lt hs)) (crcStep_lt (crcStep_lt ht)) h5
  have h7 := crcStep_inj (crcStep_lt hs) (crcStep_lt ht) h6
  exact crcStep_inj hs ht h7

theorem crcUpdate_lt {s b : Nat} (hs : s < 2 ^ 32) (hb : b < 256) :
    crcUpdate s b < 2 ^ 32 :=
  crcRound_lt (Nat.xor_lt_two_pow hs (lt_trans hb (by norm_num)))

theorem crcUpdate_state_inj {s t b : Nat} (hs : s < 2 ^ 32) (ht : t < 2 ^ 32)
    (hb : b < 256) (hne : s ≠ t) : crcUpdate s b ≠ crcUpdate t b := by
  intro h
  have hb32 : b < 2 ^ 32 := lt_trans hb (by norm_num)
  have := crcRound_inj (Nat.xor_lt_two_pow hs hb32) (Nat.xor_lt_two_pow ht hb32) h
  exact hne (Nat.xor_left_inj.mp this)

theorem crcUpdate_byte_inj {s b b' : Nat} (hs : s < 2 ^ 32) (hb : b < 256)
    (hb' : b' < 256) (hne : b ≠ b') : crcUpdate s b ≠ crcUpdate s b' := by
  intro h
  have hb32 : b < 2 ^ 32 := lt_trans hb (by norm_num)
  have hb32' : b' < 2 ^ 32 := lt_trans hb' (by norm_num)
  have := crcRound_inj (Nat.xor_lt_two_pow hs hb32) (Nat.xor_lt_two_pow hs hb32') h
  exact hne (Nat.xor_right_inj.mp this)

theorem crcFold_lt {l : List Nat} {s : Nat} (hs : s < 2 ^ 32)
    (hl : ∀ x ∈ l, x < 256) : l.foldl crcUpdate s < 2 ^ 32 := by
  induction l generalizing s with
  | nil => exact hs
  | cons a l ih =>
    rw [List.foldl_cons]
    exact ih (crcUpdate_lt hs (hl a (by simp))) (fun x hx => hl x (by simp [hx]))

theorem crcFold_inj {l : List Nat} {s t : Nat} (hs : s < 2 ^ 32) (ht : t < 2 ^ 32)
    (hl : ∀ x ∈ l, x < 256) (hne : s ≠ t) :
    l.foldl crcUpdate s ≠ l.foldl crcUpdate t := by
  induction l generalizing s t with
  | nil => exact hne
  | cons a l ih =>
    rw [List.foldl_cons, List.foldl_cons]
    have ha : a < 256 := hl a (by simp)
    exact ih (crcUpdate_lt hs ha) (crcUpdate_lt ht ha)
      (fun x hx => hl x (by simp [hx]))
      (crcUpdate_state_inj hs ht ha hne)

/-- CRC-32 distinguishes any two byte sequences that differ in exactly one
byte. -/
theorem crc32_flip_ne (pre suf : List Nat) (b b' : Nat)
    (hpre : ∀ x ∈ pre, x < 256) (hb : b < 256) (hb' : b' < 256)
    (hsuf : ∀ x ∈ suf, x < 256) (hne : b ≠ b') :
    crc32 (pre ++ b :: suf) ≠ crc32 (pre ++ b' :: suf) := by
  intro h
  unfold crc32 at h
  have hinner := Nat.xor_left_inj.mp h
  rw [List.foldl_append, List.foldl_append, List.foldl_cons, List.foldl_cons] at hinner
  have hinit : (0xFFFFFFFF : Nat) < 2 ^ 32 := by norm_num
  have hs0 : pre.foldl crcUpdate 0xFFFFFFFF < 2 ^ 32 := crcFold_lt hinit hpre
  exact crcFold_inj (crcUpdate_lt hs0 hb) (crcUpdate_lt hs0 hb') hsuf
    (crcUpdate_byte_inj hs0 hb hb' hne) hinner

/-! ## Byte-level helpers -/

theorem IsBytes.getD_lt {l : List Nat} (h : IsBytes l) (j : Nat) : l.getD j 0 < 256 := by
  by_cases hj : j < l.length
  · rw [List.getD_eq_getElem l 0 hj]
    exact h _ (List.getElem_mem hj)
  · rw [List.getD_eq_default l 0 (le_of_not_lt hj)]
    norm_num

theorem extractBytes_getD {l : List Nat} {start n k : Nat} (hk : k < n) :
    (extractBytes l start n).getD k 0 = l.getD (start + k) 0 := by
  unfold extractBytes
  have hlen : k < ((List.range n).map (fun k => l.getD (start + k) 0)).length := by
    simpa using hk
  rw [List.getD_eq_getElem _ 0 hlen]
  simp

theorem extractBytes_bytes {l : List Nat} (hb : IsBytes l) (start n : Nat) :
    ∀ x ∈ extractBytes l start n, x < 256 := by
  intro x hx
  unfold extractBytes at hx
  obtain ⟨k, hk, rfl⟩ := List.mem_map.mp hx
  exact hb.getD_lt _

theorem extractBytes_congr {l l' : List Nat} {start n : Nat}
    (h : ∀ k, k < n → l'.getD (start + k) 0 = l.getD (start + k) 0) :
    extractBytes l' start n = extractBytes l start n := by
  unfold extractBytes
  apply List.map_congr_left
  intro k hk
  exact h k (List.mem_range.mp hk)

theorem extractBytes_append (l : List Nat) (start m n : Nat) :
    extractBytes l start m ++ extractBytes l (start + m) n = extractBytes l start (m + n) := by
  unfold extractBytes
  rw [List.range_add, List.map_append, List.map_map]
  congr 1
  apply List.map_congr_left
  intro k hk
  simp [Nat.add_assoc]

theorem extractBytes_one (l : List Nat) (p : Nat) : extractBytes l p 1 = [l.getD p 0] := by
  unfold extractBytes
  rw [show List.range 1 = [0] from rfl, List.map_cons, List.map_nil, Nat.add_zero]

theorem extractBytes_split_aux (l : List Nat) (start k j : Nat) :
    extractBytes l start (k + (1 + j)) =
      extractBytes l start k ++ l.getD (start + k) 0 :: extractBytes l (start + k + 1) j := by
  rw [← extractBytes_append l start k (1 + j), ← extractBytes_append l (start + k) 1 j,
    extractBytes_one]
  rfl

theorem extractBytes_split (l : List Nat) (start n k : Nat) (hk : k < n) :
    extractBytes l start n =
      extractBytes l start k ++
        l.getD (start + k) 0 :: extractBytes l (start + k + 1) (n - k - 1) := by
  have hn : k + (1 + (n - k - 1)) = n := by omega
  conv_lhs => rw [← hn]
  exact extractBytes_split_aux l start k (n - k - 1)

theorem be32_bytes_inj {a0 a1 a2 a3 b0 b1 b2 b3 : Nat}
    (ha0 : a0 < 256) (ha1 : a1 < 256) (ha2 : a2 < 256) (ha3 : a3 < 256)
    (hb0 : b0 < 256) (hb1 : b1 < 256) (hb2 : b2 < 256) (hb3 : b3 < 256)
    (h : ((a0 * 256 + a1) * 256 + a2) * 256 + a3 = ((b0 * 256 + b1) * 256 + b2) * 256 + b3) :
    a0 = b0 ∧ a1 = b1 ∧ a2 = b2 ∧ a3 = b3 := by
  omega

theorem be32at_congr {l l' : List Nat} {p : Nat}
    (h : ∀ j, p ≤ j → j < p + 4 → l'.getD j 0 = l.getD j 0) :
    be32at l' p = be32at l p := by
  unfold be32at
  rw [h p le_rfl (by omega), h (p + 1) (by omega) (by omega),
    h (p + 2) (by omega) (by omega), h (p + 3) (by omega) (by omega)]

theorem be32at_ne_of_byte_ne {l l' : List Nat} {p i : Nat}
    (hbl : IsBytes l) (hbl' : IsBytes l')
    (hip : p ≤ i) (hiu : i < p + 4)
    (hdiff : l'.getD i 0 ≠ l.getD i 0) : be32at l' p ≠ be32at l p := by
  intro h
  unfold be32at at h
  have hc := be32_bytes_inj (hbl'.getD_lt p) (hbl'.getD_lt (p + 1)) (hbl'.getD_lt (p + 2))
    (hbl'.getD_lt (p + 3)) (hbl.getD_lt p) (hbl.getD_lt (p + 1)) (hbl.getD_lt (p + 2))
    (hbl.getD_lt (p + 3)) h
  have hi : i = p ∨ i = p + 1 ∨ i = p + 2 ∨ i = p + 3 := by omega
  rcases hi with rfl | rfl | rfl | rfl
  · exact hdiff hc.1
  · exact hdiff hc.2.1
  · exact hdiff hc.2.2.1
  · exact hdiff hc.2.2.2

/-! ## Facts about processed chunks -/

/-- Every chunk the PNG scanner processes sits at or after the cursor, within
the buffer, and with its declared length read from the buffer. -/
theorem pngTrace_mem {buf : List Nat} (fuel : Nat) :
    ∀ pos q L, (q, L) ∈ pngTrace fuel buf pos →
      pos ≤ q ∧ q + 12 < buf.length ∧ be32at buf q = L ∧
        q + 8 + L + 4 ≤ buf.length := by
  induction fuel with
  | zero => intro pos q L h; exact absurd h (by simp [pngTrace])
  | succ n ih =>
    intro pos q L h
    rw [pngTrace_succ] at h
    by_cases hguard : pos + 12 < buf.length
    case neg => rw [if_neg hguard] at h; simp at h
    rw [if_pos hguard] at h
    by_cases hbounds : pos + 8 + be32at buf pos + 4 > buf.length
    · rw [if_pos hbounds] at h; simp at h
    rw [if_neg hbounds] at h
    have hleaf : (q, L) = (pos, be32at buf pos) →
        pos ≤ q ∧ q + 12 < buf.length ∧ be32at buf q = L ∧
          q + 8 + L + 4 ≤ buf.length := by
      intro he
      obtain ⟨rfl, rfl⟩ := Prod.mk.injEq .. ▸ he
      exact ⟨le_refl q, hguard, rfl, by omega⟩
    have htail : (q, L) ∈ pngTrace n buf (pos + 12 + be32at buf pos) →
        pos ≤ q ∧ q + 12 < buf.length ∧ be32at buf q = L ∧
          q + 8 + L + 4 ≤ buf.length := by
      intro hm
      obtain ⟨h1, h2, h3, h4⟩ := ih _ q L hm
      exact ⟨by omega, h2, h3, h4⟩
    by_cases hcrc : crc32 (extractBytes buf (pos + 4) 4 ++
        extractBytes buf (pos + 8) (be32at buf pos)) ≠ be32at buf (pos + 8 + be32at buf pos)
    · rw [if_pos hcrc] at h
      exact hleaf (List.mem_singleton.mp h)
    rw [if_neg hcrc] at h
    by_cases hihdr : extractBytes buf (pos + 4) 4 = ihdrType
    · rw [if_pos hihdr] at h
      by_cases hlen : be32at buf pos ≠ 13
      · rw [if_pos hlen] at h
        exact hleaf (List.mem_singleton.mp h)
      · rw [if_neg hlen] at h
        rcases List.mem_cons.mp h with he | hm
        · exact hleaf he
        · exact htail hm
    rw [if_neg hihdr] at h
    by_cases htext : extractBytes buf (pos + 4) 4 = textType
    · rw [if_pos htext] at h
      cases hsp : splitAtNul (extractBytes buf (pos + 8) (be32at buf pos)) with
      | none =>
        rw [hsp] at h
        exact hleaf (List.mem_singleton.mp h)
      | some kt =>
        rw [hsp] at h
        rcases List.mem_cons.mp h with he | hm
        · exact hleaf he
        · exact htail hm
    rw [if_neg htext] at h
    by_cases hiend : extractBytes buf (pos + 4) 4 = iendType
    · rw [if_pos hiend] at h
      exact hleaf (List.mem_singleton.mp h)
    · rw [if_neg hiend] at h
      rcases List.mem_cons.mp h with he | hm
      · exact hleaf he
      · exact htail hm

/-- If a single byte inside the current chunk's type, payload, or stored CRC
region differs from a buffer on which that chunk's CRC was valid, the scanner
at that chunk reports `InvalidChunkCrc`. -/
theorem readPngLoop_flip_here (buf buf' : List Nat) (pos i : Nat)
    (hb : IsBytes buf) (hb' : IsBytes buf')
    (hlen : buf'.length = buf.length)
    (hguard : pos + 12 < buf.length)
    (hbounds : pos + 8 + be32at buf pos + 4 ≤ buf.length)
    (hvalid : crc32 (extractBytes buf (pos + 4) 4 ++
        extractBytes buf (pos + 8) (be32at buf pos)) =
      be32at buf (pos + 8 + be32at buf pos))
    (hi4 : pos + 4 ≤ i) (hiu : i < pos + 12 + be32at buf pos)
    (hdiff : buf'.getD i 0 ≠ buf.getD i 0)
    (hsame : ∀ j, j < buf.length → j ≠ i → buf'.getD j 0 = buf.getD j 0) :
    ∀ fuel c d, readPngLoop (fuel + 1) buf' pos c d = Outcome.error .invalidChunkCrc := by
  intro fuel c d
  have hlenEq : be32at buf' pos = be32at buf pos := by
    apply be32at_congr
    intro j hj1 hj2
    exact hsame j (by omega) (by omega)
  have hcrcne : crc32 (extractBytes buf' (pos + 4) 4 ++
      extractBytes buf' (pos + 8) (be32at buf pos)) ≠
      be32at buf' (pos + 8 + be32at buf pos) := by
    by_cases hcase : i < pos + 8 + be32at buf pos
    · -- the flip is in the type or payload region; the stored CRC is unchanged
      have hcrcSame : be32at buf' (pos + 8 + be32at buf pos) =
          be32at buf (pos + 8 + be32at buf pos) := by
        apply be32at_congr
        intro j hj1 hj2
        exact hsame j (by omega) (by omega)
      rw [hcrcSame, ← hvalid]
      have hcomb : ∀ l : List Nat,
          extractBytes l (pos + 4) 4 ++ extractBytes l (pos + 8) (be32at buf pos) =
            extractBytes l (pos + 4) (4 + be32at buf pos) := by
        intro l
        have hx := extractBytes_append l (pos + 4) 4 (be32at buf pos)
        rwa [show pos + 4 + 4 = pos + 8 from by omega] at hx
      rw [hcomb buf', hcomb buf]
      have hkn : i - (pos + 4) < 4 + be32at buf pos := by omega
      have hik : pos + 4 + (i - (pos + 4)) = i := by omega
      rw [extractBytes_split buf' (pos + 4) (4 + be32at buf pos) (i - (pos + 4)) hkn,
        extractBytes_split buf (pos + 4) (4 + be32at buf pos) (i - (pos + 4)) hkn, hik]
      have hpre : extractBytes buf' (pos + 4) (i - (pos + 4)) =
          extractBytes buf (pos + 4) (i - (pos + 4)) := by
        apply extractBytes_congr
        intro j hj
        exact hsame (pos + 4 + j) (by omega) (by omega)
      have hsuf : extractBytes buf' (i + 1) (4 + be32at buf pos - (i - (pos + 4)) - 1) =
          extractBytes buf (i + 1) (4 + be32at buf pos - (i - (pos + 4)) - 1) := by
        apply extractBytes_congr
        intro j hj
        exact hsame (i + 1 + j) (by omega) (by omega)
      rw [hpre, hsuf]
      exact crc32_flip_ne _ _ _ _ (extractBytes_bytes hb _ _) (hb'.getD_lt i)
        (hb.getD_lt i) (extractBytes_bytes hb _ _) hdiff
    · -- the flip is in the stored CRC; the computed CRC is unchanged
      have htype : extractBytes buf' (pos + 4) 4 = extractBytes buf (pos + 4) 4 := by
        apply extractBytes_congr
        intro j hj
        exact hsame (pos + 4 + j) (by omega) (by omega)
      have hdata : extractBytes buf' (pos + 8) (be32at buf pos) =
          extractBytes buf (pos + 8) (be32at buf pos) := by
        apply extractBytes_congr
        intro j hj
        exact hsame (pos + 8 + j) (by omega) (by omega)
      rw [htype, hdata, hvalid]
      exact (be32at_ne_of_byte_ne hb hb' (by omega) (by omega) hdiff).symm
  rw [readPngLoop_succ, hlenEq]
  rw [if_pos (show pos + 12 < buf'.length by omega)]
  rw [if_neg (show ¬ pos + 8 + be32at buf pos + 4 > buf'.length by omega)]
  rw [if_pos hcrcne]

/-- When the changed byte lies beyond the current chunk, the scanner's step on
the changed buffer reads exactly the bytes of the original chunk. -/
theorem readPngLoop_local_step (buf buf' : List Nat) (pos i : Nat)
    (hlen : buf'.length = buf.length)
    (hguard : pos + 12 < buf.length)
    (hbounds : ¬pos + 8 + be32at buf pos + 4 > buf.length)
    (hfar : pos + 12 + be32at buf pos ≤ i)
    (hsame : ∀ j, j < buf.length → j ≠ i → buf'.getD j 0 = buf.getD j 0) :
    ∀ n c d, readPngLoop (n + 1) buf' pos c d =
      if crc32 (extractBytes buf (pos + 4) 4 ++ extractBytes buf (pos + 8) (be32at buf pos)) ≠
          be32at buf (pos + 8 + be32at buf pos) then Outcome.error .invalidChunkCrc
      else if extractBytes buf (pos + 4) 4 = ihdrType then
        if be32at buf pos ≠ 13 then Outcome.error (.invalidIHDRLength (be32at buf pos))
        else readPngLoop n buf' (pos + 12 + be32at buf pos) c
          (some (be32at (extractBytes buf (pos + 8) (be32at buf pos)) 0,
            be32at (extractBytes buf (pos + 8) (be32at buf pos)) 4))
      else if extractBytes buf (pos + 4) 4 = textType then
        match splitAtNul (extractBytes buf (pos + 8) (be32at buf pos)) with
        | none => Outcome.crashed
        | some (keyword, text) =>
          if keyword = commentKeyword then
            readPngLoop n buf' (pos + 12 + be32at buf pos) (c ++ [text]) d
          else readPngLoop n buf' (pos + 12 + be32at buf pos) c d
      else if extractBytes buf (pos + 4) 4 = iendType then finishPng c d
      else readPngLoop n buf' (pos + 12 + be32at buf pos) c d := by
  intro n c d
  have hlenEq : be32at buf' pos = be32at buf pos := by
    apply be32at_congr
    intro j hj1 hj2
    exact hsame j (by omega) (by omega)
  have htype : extractBytes buf' (pos + 4) 4 = extractBytes buf (pos + 4) 4 := by
    apply extractBytes_congr
    intro j hj
    exact hsame (pos + 4 + j) (by omega) (by omega)
  have hdata : extractBytes buf' (pos + 8) (be32at buf pos) =
      extractBytes buf (pos + 8) (be32at buf pos) := by
    apply extractBytes_congr
    intro j hj
    exact hsame (pos + 8 + j) (by omega) (by omega)
  have hcrcS : be32at buf' (pos + 8 + be32at buf pos) =
      be32at buf (pos + 8 + be32at buf pos) := by
    apply be32at_congr
    intro j hj1 hj2
    exact hsame j (by omega) (by omega)
  rw [readPngLoop_succ, hlenEq, htype, hdata, hcrcS]
  rw [if_pos (show pos + 12 < buf'.length by omega)]
  rw [if_neg (show ¬pos + 8 + be32at buf pos + 4 > buf'.length by omega)]

/-- Single-byte corruption of any chunk the scanner processes with a valid CRC
is detected: the scan of the corrupted buffer ends in `InvalidChunkCrc`. -/
theorem readPngLoop_flip (buf buf' : List Nat) (q i : Nat)
    (hb : IsBytes buf) (hb' : IsBytes buf')
    (hlen : buf'.length = buf.length)
    (hvalid : crc32 (extractBytes buf (q + 4) 4 ++
        extractBytes buf (q + 8) (be32at buf q)) = be32at buf (q + 8 + be32at buf q))
    (hi4 : q + 4 ≤ i) (hiu : i < q + 12 + be32at buf q)
    (hdiff : buf'.getD i 0 ≠ buf.getD i 0)
    (hsame : ∀ j, j < buf.length → j ≠ i → buf'.getD j 0 = buf.getD j 0) :
    ∀ fuel pos c d, (q, be32at buf q) ∈ pngTrace fuel buf pos →
      readPngLoop fuel buf' pos c d = Outcome.error .invalidChunkCrc := by
  intro fuel
  induction fuel with
  | zero => intro pos c d h; exact absurd h (by simp [pngTrace])
  | succ n ih =>
    intro pos c d h
    rw [pngTrace_succ] at h
    by_cases hguard : pos + 12 < buf.length
    case neg => rw [if_neg hguard] at h; simp at h
    rw [if_pos hguard] at h
    by_cases hbounds : pos + 8 + be32at buf pos + 4 > buf.length
    · rw [if_pos hbounds] at h; simp at h
    rw [if_neg hbounds] at h
    have hhere : (q, be32at buf q) = (pos, be32at buf pos) →
        readPngLoop (n + 1) buf' pos c d = Outcome.error .invalidChunkCrc := by
      intro he
      have hq : q = pos := by
        have := congrArg Prod.fst he
        simpa using this
      subst hq
      exact readPngLoop_flip_here buf buf' q i hb hb' hlen hguard (by omega)
        hvalid hi4 hiu hdiff hsame n c d
    by_cases hcrc : crc32 (extractBytes buf (pos + 4) 4 ++
        extractBytes buf (pos + 8) (be32at buf pos)) ≠ be32at buf (pos + 8 + be32at buf pos)
    · rw [if_pos hcrc] at h
      have he := List.mem_singleton.mp h
      have hq : q = pos := by
        have := congrArg Prod.fst he
        simpa using this
      subst hq
      exact absurd hvalid hcrc
    rw [if_neg hcrc] at h
    by_cases hihdr : extractBytes buf (pos + 4) 4 = ihdrType
    · rw [if_pos hihdr] at h
      by_cases hlen13 : be32at buf pos ≠ 13
      · rw [if_pos hlen13] at h
        exact hhere (List.mem_singleton.mp h)
      · rw [if_neg hlen13] at h
        rcases List.mem_cons.mp h with he | hm
        · exact hhere he
        · have hq12 := (pngTrace_mem n _ q _ hm).1
          rw [readPngLoop_local_step buf buf' pos i hlen hguard hbounds (by omega) hsame n c d]
          rw [if_neg hcrc, if_pos hihdr, if_neg hlen13]
          exact ih _ _ _ hm
    rw [if_neg hihdr] at h
    by_cases htext : extractBytes buf (pos + 4) 4 = textType
    · rw [if_pos htext] at h
      cases hsp : splitAtNul (extractBytes buf (pos + 8) (be32at buf pos)) with
      | none =>
        rw [hsp] at h
        exact hhere (List.mem_singleton.mp h)
      | some kt =>
        rw [hsp] at h
        rcases List.mem_cons.mp h with he | hm
        · exact hhere he
        · have hq12 := (pngTrace_mem n _ q _ hm).1
          rw [readPngLoop_local_step buf buf' pos i hlen hguard hbounds (by omega) hsame n c d]
          rw [if_neg hcrc, if_neg hihdr, if_pos htext]
          obtain ⟨kw, tx⟩ := kt
          simp only [hsp]
          by_cases hkey : kw = commentKeyword
          · rw [if_pos hkey]
            exact ih _ _ _ hm
          · rw [if_neg hkey]
            exact ih _ _ _ hm
    rw [if_neg htext] at h
    by_cases hiend : extractBytes buf (pos + 4) 4 = iendType
    · rw [if_pos hiend] at h
      exact hhere (List.mem_singleton.mp h)
    · rw [if_neg hiend] at h
      rcases List.mem_cons.mp h with he | hm
      · exact hhere he
      · have hq12 := (pngTrace_mem n _ q _ hm).1
        rw [readPngLoop_local_step buf buf' pos i hlen hguard hbounds (by omega) hsame n c d]
        rw [if_neg hcrc, if_neg hihdr, if_neg htext, if_neg hiend]
        exact ih _ _ _ hm

/-- C4: every chunk the PNG scanner processes has its CRC32, computed over the
4 type bytes followed by the payload, compared against the stored CRC, and a
mismatch yields `InvalidChunkCrc` (first part); consequently, changing any
single byte of a processed chunk's type, payload, or stored CRC, without
recomputing the CRC, makes the scan of the changed buffer end in
`InvalidChunkCrc` (second part). -/
theorem c4_crc_validation_and_flip_detection :
    (∀ fuel buf pos comments dims, pos + 12 < buf.length →
      ¬pos + 8 + be32at buf pos + 4 > buf.length →
      crc32 (chunkTypeAt buf pos ++ chunkDataAt buf pos) ≠ chunkCrcAt buf pos →
      readPngLoop (fuel + 1) buf pos comments dims = Outcome.error .invalidChunkCrc)
    ∧ (∀ buf buf' q L i, IsBytes buf → IsBytes buf' → buf'.length = buf.length →
      (q, L) ∈ pngTrace buf.length buf 8 →
      crc32 (chunkTypeAt buf q ++ chunkDataAt buf q) = chunkCrcAt buf q →
      q + 4 ≤ i → i < q + 12 + L →
      buf'.getD i 0 ≠ buf.getD i 0 →
      (∀ j, j < buf.length → j ≠ i → buf'.getD j 0 = buf.getD j 0) →
      readPngData buf' = Outcome.error .invalidChunkCrc) := by
  constructor
  · intro fuel buf pos c d hguard hbounds hcrc
    simp only [chunkTypeAt, chunkDataAt, chunkCrcAt, chunkLenAt] at hcrc
    rw [readPngLoop_succ, if_pos hguard, if_neg hbounds, if_pos hcrc]
  · intro buf buf' q L i hb hb' hlen hm hvalid hi4 hiu hdiff hsame
    simp only [chunkTypeAt, chunkDataAt, chunkCrcAt, chunkLenAt] at hvalid
    have hL : be32at buf q = L := (pngTrace_mem buf.length 8 q L hm).2.2.1
    rw [← hL] at hm hiu
    unfold readPngData
    rw [hlen]
    exact readPngLoop_flip buf buf' q i hb hb' hlen hvalid hi4 hiu hdiff hsame
      buf.length 8 [] none hm

/-- C4 witness: a chunk with a wrong stored CRC is rejected, and `pbufFlip`
(one payload byte of `pbufIhdr` changed, CRC left alone) is rejected. -/
theorem c4_witness :
    readPngLoop 1 pbufBadCrc 8 [] none = Outcome.error PngDecodingError.invalidChunkCrc ∧
    readPngData pbufFlip = Outcome.error PngDecodingError.invalidChunkCrc :=
  ⟨c4_crc_validation_and_flip_detection.1 0 pbufBadCrc 8 [] none
      (by decide) (by decide) (by decide),
   c4_crc_validation_and_flip_detection.2 pbufIhdr pbufFlip 8 13 20
      (by decide) (by decide) (by decide) (by decide) (by decide)
      (by decide) (by decide) (by decide) (by decide)⟩
